import Mathlib

/-
  Verification of the nheko `Cache` engine (src/Cache.cpp) against its
  natural-language specification.

  The LMDB tables and the in-memory session mirrors are shallowly embedded
  as association lists `List (key × value)`; the list order is the cursor
  scan order of the table (LMDB iterates keys in ascending byte order, so
  the list is the table contents in ascending-key order).  `lookupAL`
  models a point `lmdb::dbi_get` / `std::map` lookup and `insertAL` models
  a `lmdb::dbi_put` / `map[k] = v` store (replace the value in place when
  the key is present, append otherwise).  Machine integers that the code
  truncates are modelled with explicit `% 65536`.  Fallible C++ code
  (thrown exceptions) is modelled with `Except`/explicit error flags.
-/

namespace NhekoCache

/-- Point lookup in an association-list table, as `lmdb::dbi_get` or
`std::map::find`. -/
def lookupAL {α β : Type} [DecidableEq α] : List (α × β) → α → Option β
  | [], _ => none
  | (k', v) :: rest, k => if k = k' then some v else lookupAL rest k

/-- Store a value under a key, as `lmdb::dbi_put` or `map[k] = v`: the value
is replaced in place when the key is already present, and the pair is
appended otherwise. -/
def insertAL {α β : Type} [DecidableEq α] : List (α × β) → α → β → List (α × β)
  | [], k, v => [(k, v)]
  | (k', v') :: rest, k, v =>
    if k = k' then (k, v) :: rest else (k', v') :: insertAL rest k v

/-! ## Schema & migration guard (`isFormatValid`, `setCurrentFormat`) -/

/-- The compiled-in cache format version (`CURRENT_CACHE_FORMAT_VERSION`). -/
def CURRENT_CACHE_FORMAT_VERSION : String := "2018.06.10"

/-- The key under which the format marker is stored in `syncStateDb_`. -/
def CACHE_FORMAT_VERSION_KEY : String := "cache_format_version"

/-- The `sync_state` table: string keys to string values. -/
abbrev SyncStateDb := List (String × String)

/-- `Cache::isFormatValid`: reads the stored format marker; a missing marker
is valid, a stored marker is valid exactly when it equals the compiled-in
current version string. -/
def isFormatValid (syncStateDb : SyncStateDb) : Bool :=
  match lookupAL syncStateDb CACHE_FORMAT_VERSION_KEY with
  | none => true
  | some stored =>
    if stored ≠ CURRENT_CACHE_FORMAT_VERSION then false else true

/-- `Cache::setCurrentFormat`: writes the current version string under the
format-version key unconditionally. -/
def setCurrentFormat (syncStateDb : SyncStateDb) : SyncStateDb :=
  insertAL syncStateDb CACHE_FORMAT_VERSION_KEY CURRENT_CACHE_FORMAT_VERSION

/-! ## Session store -/

/-- Modelled from the spec: `OutboundGroupSessionData` (declared in the
missing Cache.h) bundles the rotation metadata of an outbound group
session: message index, creation time and whether it was shared. -/
structure OutboundGroupSessionData where
  message_index : Int
  creation_time : Int
  shared_with : Bool
deriving DecidableEq

/-- The in-memory mirrors of `Cache::session_storage`.  An inbound mirror
value is the unique pointer held in the `std::map`: `none` is a null
`InboundGroupSessionPtr`, `some s` a live session identified by its pickled
form `s`.  Outbound sessions are likewise identified by their pickled
form. -/
structure SessionStorage where
  group_inbound_sessions : List (String × Option String)
  group_outbound_session_data : List (String × OutboundGroupSessionData)
  group_outbound_sessions : List (String × String)
deriving DecidableEq

/-- Modelled from the spec: `MegolmSessionIndex` (declared in the missing
Cache.h) is the composite key (room id, sender key, session id) of an
inbound group session. -/
structure MegolmSessionIndex where
  room_id : String
  sender_key : String
  session_id : String
deriving DecidableEq

/-- Modelled from the spec: `MegolmSessionIndex::to_hash` derives the single
table key under which the composite index is stored; modelled as an
injective encoding of the three components. -/
def MegolmSessionIndex.to_hash (i : MegolmSessionIndex) : String :=
  i.room_id ++ "|" ++ i.sender_key ++ "|" ++ i.session_id

/-- `Cache::getInboundMegolmSession`: `session_storage.group_inbound_sessions
[index.to_hash()].get()`.  `std::map::operator[]` default-constructs a null
`InboundGroupSessionPtr` under the hash when the key is absent, so the call
returns the stored pointer and the possibly-extended mirror. -/
def getInboundMegolmSession (st : SessionStorage) (index : MegolmSessionIndex) :
    Option String × SessionStorage :=
  match lookupAL st.group_inbound_sessions index.to_hash with
  | some p => (p, st)
  | none =>
    (none,
     { st with
        group_inbound_sessions := insertAL st.group_inbound_sessions index.to_hash none })

/-- `Cache::inboundMegolmSessionExists`: checks whether the hash of the index
is a key of the inbound mirror (`find != end`), regardless of the stored
pointer being null. -/
def inboundMegolmSessionExists (st : SessionStorage) (index : MegolmSessionIndex) : Bool :=
  (lookupAL st.group_inbound_sessions index.to_hash).isSome

/-- `Cache::outboundMegolmSessionExists`: true only when both the session
object and its metadata are present in the mirror. -/
def outboundMegolmSessionExists (st : SessionStorage) (room_id : String) : Bool :=
  (lookupAL st.group_outbound_sessions room_id).isSome &&
  (lookupAL st.group_outbound_session_data room_id).isSome

/-- The on-disk `outbound_megolm_sessions` table: room id to the dumped JSON
bundle, i.e. the metadata together with the pickled session. -/
abbrev OutboundMegolmDb := List (String × (OutboundGroupSessionData × String))

/-- `Cache::updateOutboundMegolmSession`: returns without effect when no
outbound session exists for the room; otherwise reads the metadata and the
session from the mirror, sets the message index, writes the metadata back
to the mirror and the bundle (metadata + pickled session) to disk. -/
def updateOutboundMegolmSession (st : SessionStorage) (disk : OutboundMegolmDb)
    (room_id : String) (message_index : Int) : SessionStorage × OutboundMegolmDb :=
  if outboundMegolmSessionExists st room_id then
    let data := (lookupAL st.group_outbound_session_data room_id).getD ⟨0, 0, false⟩
    let session := (lookupAL st.group_outbound_sessions room_id).getD ""
    let data' := { data with message_index := message_index }
    ({ st with
        group_outbound_session_data :=
          insertAL st.group_outbound_session_data room_id data' },
     insertAL disk room_id (data', session))
  else (st, disk)

/-! ## `restoreSessions` -/

/-- The stored blob of an inbound-session table entry, abstracted by the
outcome of `unpickle<InboundSessionObject>`: either the restored session or
an unpickle failure (a thrown `olm` exception). -/
inductive InboundValue where
  | ok : String → InboundValue
  | unpickleError : InboundValue
deriving DecidableEq

/-- The stored blob of an outbound-session table entry, abstracted by the
stage at which processing it can fail: `parseError` when `json::parse`
throws, `dataError` when extracting the `data` field throws (both are
`nlohmann::json` exceptions), `sessionFieldError` when the `data` field was
extracted but reading the `session` field throws a json exception, and
`unpickleError` when the `data` field was extracted but
`unpickle<OutboundSessionObject>` throws an `olm` exception (which the
`catch` clause for json exceptions does not cover). -/
inductive OutboundValue where
  | parseError : OutboundValue
  | dataError : OutboundValue
  | sessionFieldError : OutboundGroupSessionData → OutboundValue
  | unpickleError : OutboundGroupSessionData → OutboundValue
  | ok : OutboundGroupSessionData → String → OutboundValue
deriving DecidableEq

/-- Discriminator for the uncaught-failure case of an outbound entry. -/
def OutboundValue.isUnpickleError : OutboundValue → Bool
  | .unpickleError _ => true
  | _ => false

/-- The inbound half of `Cache::restoreSessions`: scans the inbound table and
moves each unpickled session into the mirror.  The loop body has no
exception handler, so the first unpickle failure propagates out of the
whole restore; the returned flag records whether that happened. -/
def restoreInbound : SessionStorage → List (String × InboundValue) → SessionStorage × Bool
  | st, [] => (st, false)
  | st, (k, .ok s) :: rest =>
    restoreInbound
      { st with group_inbound_sessions := insertAL st.group_inbound_sessions k (some s) }
      rest
  | st, (_, .unpickleError) :: _ => (st, true)

/-- The outbound half of `Cache::restoreSessions`: scans the outbound table;
json exceptions are caught per record (the record is skipped, after any
partial mirror update already performed), while an unpickle failure
propagates and stops the restore. -/
def restoreOutbound : SessionStorage → List (String × OutboundValue) → SessionStorage × Bool
  | st, [] => (st, false)
  | st, (_, .parseError) :: rest => restoreOutbound st rest
  | st, (_, .dataError) :: rest => restoreOutbound st rest
  | st, (k, .sessionFieldError d) :: rest =>
    restoreOutbound
      { st with
          group_outbound_session_data := insertAL st.group_outbound_session_data k d }
      rest
  | st, (k, .unpickleError d) :: _ =>
    ({ st with
        group_outbound_session_data := insertAL st.group_outbound_session_data k d },
     true)
  | st, (k, .ok d s) :: rest =>
    restoreOutbound
      { st with
          group_outbound_session_data := insertAL st.group_outbound_session_data k d,
          group_outbound_sessions := insertAL st.group_outbound_sessions k s }
      rest

/-- `Cache::restoreSessions`: the inbound table is processed first, then the
outbound table; a propagated exception in the inbound half aborts before
the outbound half runs.  The flag is true when the restore was aborted by a
propagated exception. -/
def restoreSessions (st : SessionStorage) (inboundTable : List (String × InboundValue))
    (outboundTable : List (String × OutboundValue)) : SessionStorage × Bool :=
  match restoreInbound st inboundTable with
  | (st1, true) => (st1, true)
  | (st1, false) => restoreOutbound st1 outboundTable

/-- The inbound mirror contents that a completed restore of `t` produces:
every successfully unpickled entry, keyed as stored. -/
def inboundOf (t : List (String × InboundValue)) : List (String × Option String) :=
  t.filterMap (fun p =>
    match p.2 with
    | .ok s => some (p.1, some s)
    | _ => none)

/-- The outbound metadata mirror contents that a completed restore of `t`
produces: every entry whose `data` field was extracted. -/
def outboundDataOf (t : List (String × OutboundValue)) :
    List (String × OutboundGroupSessionData) :=
  t.filterMap (fun p =>
    match p.2 with
    | .sessionFieldError d => some (p.1, d)
    | .ok d _ => some (p.1, d)
    | _ => none)

/-- The outbound session mirror contents that a completed restore of `t`
produces: every fully well-formed entry. -/
def outboundSessionsOf (t : List (String × OutboundValue)) : List (String × String) :=
  t.filterMap (fun p =>
    match p.2 with
    | .ok _ s => some (p.1, s)
    | _ => none)

/-! ## Read receipts -/

/-- A stored receipt set: the `std::map<std::string, uint64_t>` from user id
to receipt timestamp, kept sorted by user id with unique keys. -/
abbrev ReceiptMap := List (String × Nat)

/-- `std::map::emplace` on a receipt map: inserts the pair at its sorted
position only when the user key is absent; an existing entry is kept
unchanged (emplace never overwrites). -/
def receiptEmplace : ReceiptMap → String → Nat → ReceiptMap
  | [], u, t => [(u, t)]
  | (u', t') :: rest, u, t =>
    if u = u' then (u', t') :: rest
    else if u < u' then (u, t) :: (u', t') :: rest
    else (u', t') :: receiptEmplace rest u t

/-- The key of the `read_receipts` table: the (event id, room id) pair
serialized into the JSON key (`ReadReceiptKey`). -/
abbrev ReadReceiptKey := String × String

/-- The `read_receipts` table: `ReadReceiptKey` to the stored receipt map. -/
abbrev ReadReceiptsDb := List (ReadReceiptKey × ReceiptMap)

/-- `Cache::updateReadReceipt`: for each event id of the payload, read the
existing receipt map (empty when absent), `emplace` every new
`(user, timestamp)` pair into it, and write the merged map back under the
(event id, room id) key. -/
def updateReadReceipt (db : ReadReceiptsDb) (room_id : String)
    (receipts : List (String × ReceiptMap)) : ReadReceiptsDb :=
  receipts.foldl
    (fun db r =>
      let key : ReadReceiptKey := (r.1, room_id)
      let saved := (lookupAL db key).getD []
      let merged := r.2.foldl (fun m e => receiptEmplace m e.1 e.2) saved
      insertAL db key merged)
    db

/-- `Cache::readReceipts`: the stored receipt map for an event (empty when
no entry exists).  The C++ code re-indexes it as a timestamp-ordered
multimap, which preserves the entry count and, for a singleton, the single
user. -/
def readReceipts (db : ReadReceiptsDb) (event_id room_id : String) : ReceiptMap :=
  (lookupAL db (event_id, room_id)).getD []

/-- The per-event filter of `Cache::filterReadEvents`: an event with no
receipts is skipped; an event with exactly one receipt is skipped when that
receipt belongs to the excluded (local) user; every other event is kept. -/
def eventIsRead (receipts : ReceiptMap) (excluded_user : String) : Bool :=
  if receipts.length = 0 then false
  else if receipts.length = 1 then
    match receipts with
    | (u, _) :: _ => decide ¬(u = excluded_user)
    | [] => true
  else true

/-- `Cache::filterReadEvents`: keeps, in order, the given event ids whose
stored receipt set makes them count as read. -/
def filterReadEvents (db : ReadReceiptsDb) (room_id : String)
    (event_ids : List String) (excluded_user : String) : List String :=
  event_ids.filter (fun e => eventIsRead (readReceipts db e room_id) excluded_user)

/-- The `pending_receipts` table: existence-only keys (event id, room id). -/
abbrev PendingReceiptsDb := List ReadReceiptKey

/-- `Cache::pendingReceiptsEvents`: scans the pending table and collects the
event ids of the keys belonging to the given room. -/
def pendingReceiptsEvents (pending : PendingReceiptsDb) (room_id : String) : List String :=
  (pending.filter (fun k => decide (k.2 = room_id))).map Prod.fst

/-- `Cache::removePendingReceipt`: deletes the (event id, room id) key from
the pending table. -/
def removePendingReceipt (pending : PendingReceiptsDb) (room_id event_id : String) :
    PendingReceiptsDb :=
  pending.filter (fun k => decide ¬(k = (event_id, room_id)))

/-- `Cache::notifyForReadReceipts`: filters the room's pending events through
`filterReadEvents`, removes each match from the pending table, and returns
the new pending table together with the list of event ids signalled to
collaborators (the signal is emitted only when the list is non-empty, so
the empty list is exactly the no-signal case). -/
def notifyForReadReceipts (db : ReadReceiptsDb) (pending : PendingReceiptsDb)
    (room_id : String) (local_user : String) : PendingReceiptsDb × List String :=
  let ms := filterReadEvents db room_id (pendingReceiptsEvents pending room_id) local_user
  (ms.foldl (fun p m => removePendingReceipt p room_id m) pending, ms)

/-! ## Permission check (`hasEnoughPowerLevel`) -/

/-- The content of an `m.room.power_levels` state event, as far as
`hasEnoughPowerLevel` consumes it: per-user levels with a default, and
per-event-type required state levels with a default.  `user_level` and
`state_level` are the accessors the mtx content type exposes. -/
structure PowerLevels where
  users : List (String × Nat)
  users_default : Nat
  events : List (String × Nat)
  state_default : Nat
deriving DecidableEq

/-- The user's power level: the per-user entry when present, the default
otherwise. -/
def PowerLevels.user_level (p : PowerLevels) (user_id : String) : Nat :=
  (lookupAL p.users user_id).getD p.users_default

/-- The required level for a state event type: the per-type entry when
present, the state default otherwise. -/
def PowerLevels.state_level (p : PowerLevels) (event_type : String) : Nat :=
  (lookupAL p.events event_type).getD p.state_default

/-- The largest value of the C++ `uint16_t`, the type of both level
accumulators in `Cache::hasEnoughPowerLevel`. -/
def UINT16_MAX : Nat := 65535

/-- `Cache::hasEnoughPowerLevel`: `min_event_level` starts at the largest
`uint16_t` value and `user_level` at 0; only when an `m.room.power_levels`
state event is stored (and parses) are they replaced by the user's level
and the minimum of the required levels of the given event types, each
truncated to `uint16_t`; the result is `user_level >= min_event_level`.
The `powerLevels` argument is the stored state event (`none` when the
room has none or it fails to parse). -/
def hasEnoughPowerLevel (powerLevels : Option PowerLevels)
    (eventTypes : List String) (user_id : String) : Bool :=
  match powerLevels with
  | some msg =>
    let user_level := msg.user_level user_id % 65536
    let min_event_level :=
      eventTypes.foldl (fun acc ty => min acc (msg.state_level ty % 65536)) UINT16_MAX
    decide (min_event_level ≤ user_level)
  | none => decide (UINT16_MAX ≤ 0)

/-! ## Timeline store (`getTimelineMessages`) -/

/-- A stored message-table value, abstracted by how
`Cache::getTimelineMessages` can consume it: `malformed` when `json::parse`
throws (the loop body has no handler, so the exception propagates),
`missingFields` when the parsed object lacks the `event` or `token` field
(the entry is skipped), and `ok event token` for a well-formed entry. -/
inductive MsgEntry where
  | malformed : MsgEntry
  | missingFields : MsgEntry
  | ok : String → String → MsgEntry
deriving DecidableEq

/-- `MAX_RESTORED_MESSAGES`: the retention/restore cap. -/
def MAX_RESTORED_MESSAGES : Nat := 30

/-- A room's message table: timestamp-derived string keys (ascending key
order = list order = chronological order) to stored values. -/
abbrev MessagesDb := List (String × MsgEntry)

/-- The restored timeline: the event list and the last pagination token
read. -/
structure Timeline where
  events : List String
  prev_batch : String
deriving DecidableEq

/-- The cursor loop of `Cache::getTimelineMessages`: fetches entries in
key order while fewer than `MAX_RESTORED_MESSAGES` have been accepted;
a malformed entry makes `json::parse` throw (error result), an entry with
missing fields is skipped without incrementing the count, and a well-formed
entry is appended and its token recorded. -/
def messagesScan : MessagesDb → Nat → List String → String → Except Unit (List String × String)
  | [], _, evs, tok => .ok (evs, tok)
  | (_, e) :: rest, index, evs, tok =>
    if index < MAX_RESTORED_MESSAGES then
      match e with
      | .malformed => .error ()
      | .missingFields => messagesScan rest index evs tok
      | .ok ev t => messagesScan rest (index + 1) (evs ++ [ev]) t
    else .ok (evs, tok)

/-- `Cache::getTimelineMessages`: runs the scan from the start of the table
and reverses the collected events before returning. -/
def getTimelineMessages (table : MessagesDb) : Except Unit Timeline :=
  match messagesScan table 0 [] "" with
  | .error e => .error e
  | .ok (evs, tok) => .ok ⟨evs.reverse, tok⟩

/-- The events a scan with the given remaining capacity accepts: the
well-formed entries from the front of the table, entries with missing
fields skipped, until the capacity is exhausted. -/
def collectRestored : MessagesDb → Nat → List String
  | [], _ => []
  | _ :: _, 0 => []
  | (_, .malformed) :: _, _ + 1 => []
  | (_, .missingFields) :: rest, cap + 1 => collectRestored rest (cap + 1)
  | (_, .ok ev _) :: rest, cap + 1 => ev :: collectRestored rest cap

/-! ## Retention (`deleteOldMessages`) -/

/-- The cursor loop of `Cache::deleteOldMessages` over one room's message
table: a forward scan counting entries from 1, deleting (under the cursor)
every entry whose running index exceeds `MAX_RESTORED_MESSAGES`. -/
def pruneScan : List (String × String) → Nat → List (String × String)
  | [], _ => []
  | e :: rest, idx =>
    if idx + 1 > MAX_RESTORED_MESSAGES then pruneScan rest (idx + 1)
    else e :: pruneScan rest (idx + 1)

/-- `Cache::deleteOldMessages` restricted to one room: a table whose size is
at most three times the cap is left untouched; otherwise the deletion scan
runs over it. -/
def deleteOldMessagesRoom (table : List (String × String)) : List (String × String) :=
  if table.length ≤ 3 * MAX_RESTORED_MESSAGES then table else pruneScan table 0

/-- `Cache::deleteOldMessages`: applies the per-room deletion scan to every
room's message table. -/
def deleteOldMessages (roomTables : List (String × List (String × String))) :
    List (String × List (String × String)) :=
  roomTables.map (fun r => (r.1, deleteOldMessagesRoom r.2))

/-! ## Room search (`searchRooms`) -/

/-- The recursion of the standard edit distance, made structural with an
explicit fuel argument; the fuel only ever needs to cover the sum of the
two lengths, which every recursive call decreases. -/
def levFuel : Nat → List Char → List Char → Nat
  | _, [], t => t.length
  | _, a :: s, [] => (a :: s).length
  | 0, _ :: _, _ :: _ => 0
  | fuel + 1, a :: s, b :: t =>
    if a = b then levFuel fuel s t
    else 1 + min (levFuel fuel s (b :: t))
               (min (levFuel fuel (a :: s) t) (levFuel fuel s t))

/-- Modelled from the spec: `utils::levenshtein_distance` (Utils.cpp is not
under src/) is the standard edit distance between two strings: the minimum
number of character insertions, deletions and substitutions turning one
into the other. -/
def levenshtein_distance (s t : List Char) : Nat :=
  levFuel (s.length + t.length) s t

/-- `QString::toLower` on the stored room name, modelled per character. -/
def strToLower (s : String) : String :=
  String.mk (s.data.map Char.toLower)

/-- The score `Cache::searchRooms` computes for a stored room: the edit
distance between the query as given and the lowercased room name (only the
name is lowercased). -/
def searchScore (query name : String) : Nat :=
  levenshtein_distance query.data (strToLower name).data

/-- `std::multimap<int, ...>::emplace`: inserts the scored entry after every
entry with a smaller-or-equal score (the upper bound of its key), so equal
scores keep insertion order. -/
def mmInsert {α : Type} : List (Nat × α) → Nat → α → List (Nat × α)
  | [], k, v => [(k, v)]
  | (k', v') :: rest, k, v =>
    if k < k' then (k, v) :: (k', v') :: rest
    else (k', v') :: mmInsert rest k v

/-- The score-ordered multimap `Cache::searchRooms` builds: every stored
room (scan order = `rooms` order), scored against the query and inserted
into the multimap. -/
def searchRanked (rooms : List (String × String)) (query : String) :
    List (Nat × (String × String)) :=
  rooms.foldl (fun items r => mmInsert items (searchScore query r.2) r) []

/-- `Cache::searchRooms` over the `rooms` table (room id, stored room name):
ranks every room by score and returns the first `max_items` entries of the
multimap (all of them when fewer exist), without their scores. -/
def searchRooms (rooms : List (String × String)) (query : String) (max_items : Nat) :
    List (String × String) :=
  ((searchRanked rooms query).take max_items).map Prod.snd

end NhekoCache

/-! # Helper lemmas -/

namespace NhekoCache

theorem lookupAL_insertAL_self {α β : Type} [DecidableEq α]
    (l : List (α × β)) (k : α) (v : β) : lookupAL (insertAL l k v) k = some v := by
  induction l with
  | nil => simp [insertAL, lookupAL]
  | cons hd tl ih =>
    by_cases h : k = hd.1
    · simp [insertAL, lookupAL, h]
    · simp only [insertAL]
      rw [if_neg h]
      simp only [lookupAL]
      rw [if_neg h]
      exact ih

theorem lookupAL_insertAL_ne {α β : Type} [DecidableEq α]
    (l : List (α × β)) (k k' : α) (v : β) (h : k' ≠ k) :
    lookupAL (insertAL l k v) k' = lookupAL l k' := by
  induction l with
  | nil => simp [insertAL, lookupAL, h]
  | cons hd tl ih =>
    by_cases hk : k = hd.1
    · subst hk
      simp [insertAL, lookupAL, h]
    · simp only [insertAL]
      rw [if_neg hk]
      simp only [lookupAL]
      by_cases hk' : k' = hd.1
      · simp [hk']
      · rw [if_neg hk', if_neg hk']
        exact ih

theorem insertAL_of_lookup_none {α β : Type} [DecidableEq α]
    (l : List (α × β)) (k : α) (v : β) (h : lookupAL l k = none) :
    insertAL l k v = l ++ [(k, v)] := by
  induction l with
  | nil => simp [insertAL]
  | cons hd tl ih =>
    simp only [lookupAL] at h
    by_cases hk : k = hd.1
    · rw [if_pos hk] at h
      cases h
    · rw [if_neg hk] at h
      simp only [insertAL]
      rw [if_neg hk]
      rw [ih h]
      simp

theorem lookupAL_append_right {α β : Type} [DecidableEq α]
    (l1 l2 : List (α × β)) (k : α) (h : lookupAL l1 k = none) :
    lookupAL (l1 ++ l2) k = lookupAL l2 k := by
  induction l1 with
  | nil => simp
  | cons hd tl ih =>
    simp only [lookupAL] at h ⊢
    by_cases hk : k = hd.1
    · rw [if_pos hk] at h
      cases h
    · rw [if_neg hk] at h ⊢
      exact ih h

end NhekoCache

/-! # Claim theorems -/

namespace NhekoCache

/-- C9: `isFormatValid` returns true when no format marker is stored and when
the stored marker equals the compiled-in current version; it returns false
for any different stored marker; and after `setCurrentFormat` runs,
`isFormatValid` returns true. -/
theorem formatValid_spec :
    (∀ db : SyncStateDb, lookupAL db CACHE_FORMAT_VERSION_KEY = none →
      isFormatValid db = true) ∧
    (∀ db : SyncStateDb,
      lookupAL db CACHE_FORMAT_VERSION_KEY = some CURRENT_CACHE_FORMAT_VERSION →
      isFormatValid db = true) ∧
    (∀ (db : SyncStateDb) (v : String), lookupAL db CACHE_FORMAT_VERSION_KEY = some v →
      v ≠ CURRENT_CACHE_FORMAT_VERSION → isFormatValid db = false) ∧
    (∀ db : SyncStateDb, isFormatValid (setCurrentFormat db) = true) := by
  refine ⟨?_, ?_, ?_, ?_⟩
  · intro db h
    simp [isFormatValid, h]
  · intro db h
    simp [isFormatValid, h]
  · intro db v h hne
    simp [isFormatValid, h, hne]
  · intro db
    simp [isFormatValid, setCurrentFormat, lookupAL_insertAL_self]

/-- Witness for C9 at concrete stores: the empty (fresh) store, a store
holding the current version, a store holding a mismatched version, and a
store that `setCurrentFormat` has stamped. -/
theorem formatValid_spec_witness :
    isFormatValid [] = true ∧
    isFormatValid [(CACHE_FORMAT_VERSION_KEY, CURRENT_CACHE_FORMAT_VERSION)] = true ∧
    isFormatValid [(CACHE_FORMAT_VERSION_KEY, "2018.01.01")] = false ∧
    isFormatValid (setCurrentFormat []) = true := by
  refine ⟨?_, ?_, ?_, ?_⟩
  · exact formatValid_spec.1 [] (by decide)
  · exact formatValid_spec.2.1 _ (by decide)
  · exact formatValid_spec.2.2.1 _ "2018.01.01" (by decide) (by decide)
  · exact formatValid_spec.2.2.2 []

/-- C10: for a session index with no entry in the inbound mirror,
`getInboundMegolmSession` returns a null session handle and default-inserts
an entry under the index's hash, so a subsequent
`inboundMegolmSessionExists` for the same index returns true even though no
session was ever saved or restored. -/
theorem getInboundMegolmSession_absent (st : SessionStorage) (I : MegolmSessionIndex)
    (h : lookupAL st.group_inbound_sessions I.to_hash = none) :
    (getInboundMegolmSession st I).1 = none ∧
    inboundMegolmSessionExists (getInboundMegolmSession st I).2 I = true := by
  simp [getInboundMegolmSession, h, inboundMegolmSessionExists, lookupAL_insertAL_self]

/-- Witness for C10 at a concrete empty mirror and index. -/
theorem getInboundMegolmSession_absent_witness :
    (getInboundMegolmSession ⟨[], [], []⟩ ⟨"r", "k", "s"⟩).1 = none ∧
    inboundMegolmSessionExists
      ((getInboundMegolmSession ⟨[], [], []⟩ ⟨"r", "k", "s"⟩).2) ⟨"r", "k", "s"⟩ = true :=
  getInboundMegolmSession_absent ⟨[], [], []⟩ ⟨"r", "k", "s"⟩ (by decide)

/-- C8: calling `updateOutboundMegolmSession` for a room with no existing
outbound group session is a no-op on both the mirrors and the on-disk
table; when a session exists, the message index written to disk equals the
message index stored in the mirror (both are the new index). -/
theorem updateOutboundMegolmSession_spec :
    (∀ (st : SessionStorage) (disk : OutboundMegolmDb) (room : String) (idx : Int),
      outboundMegolmSessionExists st room = false →
      updateOutboundMegolmSession st disk room idx = (st, disk)) ∧
    (∀ (st : SessionStorage) (disk : OutboundMegolmDb) (room : String) (idx : Int),
      outboundMegolmSessionExists st room = true →
      (lookupAL (updateOutboundMegolmSession st disk room idx).2 room).map
          (fun v => v.1.message_index) = some idx ∧
      (lookupAL ((updateOutboundMegolmSession st disk room
            idx).1.group_outbound_session_data) room).map
          (fun d => d.message_index) = some idx) := by
  constructor
  · intro st disk room idx h
    simp [updateOutboundMegolmSession, h]
  · intro st disk room idx h
    simp [updateOutboundMegolmSession, h, lookupAL_insertAL_self]

/-- Witness for C8: the empty store (no session for the room, no-op) and a
store holding a session for "room" whose index is updated to 7. -/
theorem updateOutboundMegolmSession_spec_witness :
    updateOutboundMegolmSession ⟨[], [], []⟩ [] "room" 7 = (⟨[], [], []⟩, []) ∧
    (lookupAL (updateOutboundMegolmSession
        ⟨[], [("room", ⟨1, 2, false⟩)], [("room", "sess")]⟩ [] "room" 7).2 "room").map
      (fun v => v.1.message_index) = some 7 := by
  constructor
  · exact updateOutboundMegolmSession_spec.1 ⟨[], [], []⟩ [] "room" 7 (by decide)
  · exact (updateOutboundMegolmSession_spec.2
      ⟨[], [("room", ⟨1, 2, false⟩)], [("room", "sess")]⟩ [] "room" 7 (by decide)).1

end NhekoCache

namespace NhekoCache

theorem restoreInbound_complete (t : List (String × InboundValue)) :
    ∀ st : SessionStorage,
    (∀ p ∈ t, p.2 ≠ InboundValue.unpickleError) →
    (t.map Prod.fst).Nodup →
    (∀ p ∈ t, lookupAL st.group_inbound_sessions p.1 = none) →
    restoreInbound st t =
      ({ st with group_inbound_sessions := st.group_inbound_sessions ++ inboundOf t },
       false) := by
  induction t with
  | nil =>
    intro st _ _ _
    simp [restoreInbound, inboundOf]
  | cons hd rest ih =>
    intro st hml hnd hfresh
    obtain ⟨k, v⟩ := hd
    cases v with
    | unpickleError => exact absurd rfl (hml (k, .unpickleError) (by simp))
    | ok s =>
      have hk : lookupAL st.group_inbound_sessions k = none :=
        hfresh (k, .ok s) (by simp)
      have hins : insertAL st.group_inbound_sessions k (some s) =
          st.group_inbound_sessions ++ [(k, some s)] :=
        insertAL_of_lookup_none _ _ _ hk
      have hnd' : (∀ x, (k, x) ∉ rest) ∧ (rest.map Prod.fst).Nodup := by
        simpa using hnd
      have hne_of_mem : ∀ p ∈ rest, p.1 ≠ k := by
        intro p hp heq
        have hp' := hp
        rw [← Prod.mk.eta (p := p), heq] at hp'
        exact hnd'.1 p.2 hp'
      have hrest :=
        ih { st with
              group_inbound_sessions := insertAL st.group_inbound_sessions k (some s) }
          (fun p hp => hml p (by simp [hp]))
          hnd'.2
          (fun p hp => by
            have h1 : lookupAL st.group_inbound_sessions p.1 = none :=
              hfresh p (by simp [hp])
            simp only [hins]
            rw [lookupAL_append_right _ _ _ h1]
            simp [lookupAL, hne_of_mem p hp])
      calc restoreInbound st ((k, InboundValue.ok s) :: rest)
          = restoreInbound
              { st with
                  group_inbound_sessions := insertAL st.group_inbound_sessions k (some s) }
              rest := rfl
        _ = _ := by
            rw [hrest]
            simp [hins, inboundOf]

theorem restoreOutbound_complete (t : List (String × OutboundValue)) :
    ∀ st : SessionStorage,
    (∀ p ∈ t, ∀ d, p.2 ≠ OutboundValue.unpickleError d) →
    (t.map Prod.fst).Nodup →
    (∀ p ∈ t, lookupAL st.group_outbound_session_data p.1 = none) →
    (∀ p ∈ t, lookupAL st.group_outbound_sessions p.1 = none) →
    restoreOutbound st t =
      ({ st with
          group_outbound_session_data :=
            st.group_outbound_session_data ++ outboundDataOf t,
          group_outbound_sessions := st.group_outbound_sessions ++ outboundSessionsOf t },
       false) := by
  induction t with
  | nil =>
    intro st _ _ _ _
    simp [restoreOutbound, outboundDataOf, outboundSessionsOf]
  | cons hd rest ih =>
    intro st hml hnd hfd hfs
    obtain ⟨k, v⟩ := hd
    have hnd' : (∀ x, (k, x) ∉ rest) ∧ (rest.map Prod.fst).Nodup := by
      simpa using hnd
    have hne_of_mem : ∀ p ∈ rest, p.1 ≠ k := by
      intro p hp heq
      have hp' := hp
      rw [← Prod.mk.eta (p := p), heq] at hp'
      exact hnd'.1 p.2 hp'
    cases v with
    | unpickleError d => exact absurd rfl (hml (k, .unpickleError d) (by simp) d)
    | parseError =>
      have hrest := ih st (fun p hp => hml p (by simp [hp])) hnd'.2
        (fun p hp => hfd p (by simp [hp])) (fun p hp => hfs p (by simp [hp]))
      calc restoreOutbound st ((k, OutboundValue.parseError) :: rest)
          = restoreOutbound st rest := rfl
        _ = _ := by rw [hrest]; simp [outboundDataOf, outboundSessionsOf]
    | dataError =>
      have hrest := ih st (fun p hp => hml p (by simp [hp])) hnd'.2
        (fun p hp => hfd p (by simp [hp])) (fun p hp => hfs p (by simp [hp]))
      calc restoreOutbound st ((k, OutboundValue.dataError) :: rest)
          = restoreOutbound st rest := rfl
        _ = _ := by rw [hrest]; simp [outboundDataOf, outboundSessionsOf]
    | sessionFieldError d =>
      have hkd : lookupAL st.group_outbound_session_data k = none :=
        hfd (k, .sessionFieldError d) (by simp)
      have hins : insertAL st.group_outbound_session_data k d =
          st.group_outbound_session_data ++ [(k, d)] :=
        insertAL_of_lookup_none _ _ _ hkd
      have hrest := ih
        { st with
            group_outbound_session_data := insertAL st.group_outbound_session_data k d }
        (fun p hp => hml p (by simp [hp])) hnd'.2
        (fun p hp => by
          have h1 : lookupAL st.group_outbound_session_data p.1 = none :=
            hfd p (by simp [hp])
          simp only [hins]
          rw [lookupAL_append_right _ _ _ h1]
          simp [lookupAL, hne_of_mem p hp])
        (fun p hp => hfs p (by simp [hp]))
      calc restoreOutbound st ((k, OutboundValue.sessionFieldError d) :: rest)
          = restoreOutbound
              { st with
                  group_outbound_session_data :=
                    insertAL st.group_outbound_session_data k d }
              rest := rfl
        _ = _ := by
            rw [hrest]
            simp [hins, outboundDataOf, outboundSessionsOf]
    | ok d s =>
      have hkd : lookupAL st.group_outbound_session_data k = none :=
        hfd (k, .ok d s) (by simp)
      have hks : lookupAL st.group_outbound_sessions k = none :=
        hfs (k, .ok d s) (by simp)
      have hinsd : insertAL st.group_outbound_session_data k d =
          st.group_outbound_session_data ++ [(k, d)] :=
        insertAL_of_lookup_none _ _ _ hkd
      have hinss : insertAL st.group_outbound_sessions k s =
          st.group_outbound_sessions ++ [(k, s)] :=
        insertAL_of_lookup_none _ _ _ hks
      have hrest := ih
        { st with
            group_outbound_session_data := insertAL st.group_outbound_session_data k d,
            group_outbound_sessions := insertAL st.group_outbound_sessions k s }
        (fun p hp => hml p (by simp [hp])) hnd'.2
        (fun p hp => by
          have h1 : lookupAL st.group_outbound_session_data p.1 = none :=
            hfd p (by simp [hp])
          simp only [hinsd]
          rw [lookupAL_append_right _ _ _ h1]
          simp [lookupAL, hne_of_mem p hp])
        (fun p hp => by
          have h1 : lookupAL st.group_outbound_sessions p.1 = none :=
            hfs p (by simp [hp])
          simp only [hinss]
          rw [lookupAL_append_right _ _ _ h1]
          simp [lookupAL, hne_of_mem p hp])
      calc restoreOutbound st ((k, OutboundValue.ok d s) :: rest)
          = restoreOutbound
              { st with
                  group_outbound_session_data :=
                    insertAL st.group_outbound_session_data k d,
                  group_outbound_sessions := insertAL st.group_outbound_sessions k s }
              rest := rfl
        _ = _ := by
            rw [hrest]
            simp [hinsd, hinss, outboundDataOf, outboundSessionsOf]

end NhekoCache

namespace NhekoCache

/-- C6 (amended): `restoreSessions` is partial-failure tolerant only for
outbound entries failing at a JSON stage: when no stored entry makes an
unpickle call throw, the restore completes and populates the mirrors with
exactly the well-formed parts of every entry — outbound records whose JSON
parsing or field extraction fails are skipped and processing continues.
An inbound entry that fails to unpickle, however, aborts the whole restore
(second conjunct): the inbound loop has no per-record handler. -/
theorem restoreSessions_spec :
    (∀ (inboundTable : List (String × InboundValue))
       (outboundTable : List (String × OutboundValue)),
      (∀ p ∈ inboundTable, p.2 ≠ InboundValue.unpickleError) →
      (∀ p ∈ outboundTable, p.2.isUnpickleError = false) →
      (inboundTable.map Prod.fst).Nodup →
      (outboundTable.map Prod.fst).Nodup →
      restoreSessions ⟨[], [], []⟩ inboundTable outboundTable =
        (⟨inboundOf inboundTable, outboundDataOf outboundTable,
          outboundSessionsOf outboundTable⟩, false)) ∧
    (∀ (st : SessionStorage) (k : String) (rest : List (String × InboundValue))
       (outboundTable : List (String × OutboundValue)),
      restoreSessions st ((k, InboundValue.unpickleError) :: rest) outboundTable =
        (st, true)) := by
  constructor
  · intro inT outT h1 h2 h3 h4
    have h2' : ∀ p ∈ outT, ∀ d, p.2 ≠ OutboundValue.unpickleError d := by
      intro p hp d heq
      have hb := h2 p hp
      rw [heq] at hb
      simp [OutboundValue.isUnpickleError] at hb
    have hin := restoreInbound_complete inT ⟨[], [], []⟩ h1 h3 (fun p _ => rfl)
    have hout := restoreOutbound_complete outT ⟨inboundOf inT, [], []⟩ h2' h4
      (fun p _ => rfl) (fun p _ => rfl)
    simp only [restoreSessions, hin]
    simpa using hout
  · intro st k rest outT
    rfl

/-- Witness for C6 at concrete tables: one good inbound entry, one outbound
entry whose JSON fails to parse and one fully well-formed outbound entry;
the restore completes and the parse failure is skipped. -/
theorem restoreSessions_spec_witness :
    restoreSessions ⟨[], [], []⟩ [("k2", InboundValue.ok "s")]
        [("b", OutboundValue.parseError), ("c", OutboundValue.ok ⟨3, 4, true⟩ "s2")] =
      (⟨inboundOf [("k2", InboundValue.ok "s")],
        outboundDataOf [("b", OutboundValue.parseError),
          ("c", OutboundValue.ok ⟨3, 4, true⟩ "s2")],
        outboundSessionsOf [("b", OutboundValue.parseError),
          ("c", OutboundValue.ok ⟨3, 4, true⟩ "s2")]⟩, false) ∧
    restoreSessions ⟨[], [], []⟩
        [("k1", InboundValue.unpickleError)] [("b", OutboundValue.parseError)] =
      (⟨[], [], []⟩, true) :=
  ⟨restoreSessions_spec.1 _ _ (by decide) (by decide) (by decide) (by decide),
   restoreSessions_spec.2 ⟨[], [], []⟩ "k1" [] [("b", OutboundValue.parseError)]⟩

/-- Counterexample to C6 as stated: with a malformed inbound entry followed
by a well-formed one, the restore aborts (the exception escapes) and the
well-formed entry "k2" is never populated into the mirror, contradicting
the claim that a malformed entry is skipped and every other well-formed
entry is restored. -/
theorem restoreSessions_counterexample :
    (restoreSessions ⟨[], [], []⟩
        [("k1", InboundValue.unpickleError), ("k2", InboundValue.ok "s")] []).2 = true ∧
    lookupAL ((restoreSessions ⟨[], [], []⟩
        [("k1", InboundValue.unpickleError),
         ("k2", InboundValue.ok "s")] []).1).group_inbound_sessions "k2" = none := by
  constructor
  · rfl
  · rfl

end NhekoCache

namespace NhekoCache

/-- C1 (amended): merging the same `(user, timestamp)` receipt entry twice
yields the same stored set as merging it once (idempotent), but merging
`(u, t1)` then `(u, t2)` with `t2 > t1` leaves `u` mapped to `t1`: the
merge uses `std::map::emplace`, which inserts only absent keys, so an
existing entry is never overwritten by newer data. -/
theorem updateReadReceipt_spec (db : ReadReceiptsDb) (room_id event_id user : String)
    (t1 t2 : Nat) (hfresh : lookupAL db (event_id, room_id) = none) (_hlt : t1 < t2) :
    lookupAL (updateReadReceipt db room_id [(event_id, [(user, t1)])])
        (event_id, room_id) = some [(user, t1)] ∧
    lookupAL (updateReadReceipt (updateReadReceipt db room_id [(event_id, [(user, t1)])])
        room_id [(event_id, [(user, t1)])]) (event_id, room_id) = some [(user, t1)] ∧
    lookupAL (updateReadReceipt (updateReadReceipt db room_id [(event_id, [(user, t1)])])
        room_id [(event_id, [(user, t2)])]) (event_id, room_id) = some [(user, t1)] := by
  have h1 : updateReadReceipt db room_id [(event_id, [(user, t1)])] =
      insertAL db (event_id, room_id) [(user, t1)] := by
    simp [updateReadReceipt, hfresh, receiptEmplace]
  have h2 : ∀ tx : Nat,
      updateReadReceipt (insertAL db (event_id, room_id) [(user, t1)])
          room_id [(event_id, [(user, tx)])] =
        insertAL (insertAL db (event_id, room_id) [(user, t1)])
          (event_id, room_id) [(user, t1)] := by
    intro tx
    simp [updateReadReceipt, lookupAL_insertAL_self, receiptEmplace]
  refine ⟨?_, ?_, ?_⟩
  · rw [h1, lookupAL_insertAL_self]
  · rw [h1, h2 t1, lookupAL_insertAL_self]
  · rw [h1, h2 t2, lookupAL_insertAL_self]

/-- Witness for C1 (amended) on the empty receipts table with timestamps
1 < 2. -/
theorem updateReadReceipt_spec_witness :
    lookupAL (updateReadReceipt [] "r" [("e", [("u", 1)])]) ("e", "r") = some [("u", 1)] ∧
    lookupAL (updateReadReceipt (updateReadReceipt [] "r" [("e", [("u", 1)])])
        "r" [("e", [("u", 1)])]) ("e", "r") = some [("u", 1)] ∧
    lookupAL (updateReadReceipt (updateReadReceipt [] "r" [("e", [("u", 1)])])
        "r" [("e", [("u", 2)])]) ("e", "r") = some [("u", 1)] :=
  updateReadReceipt_spec [] "r" "e" "u" 1 2 (by decide) (by decide)

/-- Counterexample to C1 as stated: starting from an empty store, merging
`("u", 1)` and then `("u", 2)` for the same event leaves the stored receipt
set mapping `"u"` to 1, not to the newer timestamp 2 — duplicate user keys
keep the old value, contradicting "duplicate user keys take the new
value". -/
theorem updateReadReceipt_counterexample :
    lookupAL (updateReadReceipt (updateReadReceipt [] "r" [("e", [("u", 1)])])
        "r" [("e", [("u", 2)])]) ("e", "r") = some [("u", 1)] ∧
    (1 : Nat) < 2 ∧ ([("u", (1 : Nat))] : ReceiptMap) ≠ [("u", 2)] := by
  refine ⟨rfl, by decide, by decide⟩

theorem foldl_min_le_iff {α : Type} (f : α → Nat) (l : List α) :
    ∀ a x : Nat, (l.foldl (fun acc b => min acc (f b)) a ≤ x) ↔
      (a ≤ x ∨ ∃ b ∈ l, f b ≤ x) := by
  induction l with
  | nil => intro a x; simp
  | cons c rest ih =>
    intro a x
    simp only [List.foldl_cons, ih, min_le_iff, List.mem_cons]
    constructor
    · rintro ((h | h) | ⟨b, hb, hfb⟩)
      · exact Or.inl h
      · exact Or.inr ⟨c, Or.inl rfl, h⟩
      · exact Or.inr ⟨b, Or.inr hb, hfb⟩
    · rintro (h | ⟨b, hb, hfb⟩)
      · exact Or.inl (Or.inl h)
      · rcases hb with rfl | hb
        · exact Or.inl (Or.inr hfb)
        · exact Or.inr ⟨b, hb, hfb⟩

/-- C2 (amended): when a power-levels state event is stored,
`hasEnoughPowerLevel` returns true iff the user's level (truncated to
`uint16_t`) reaches the minimum required level over the given event types
(or the `uint16_t` maximum when the list contributes nothing smaller);
when the room has NO stored power-levels state event, it returns false for
every user and every list of event types (the user level defaults to 0 and
the required minimum to 65535), i.e. absence of the event denies rather
than imposing no restriction. -/
theorem hasEnoughPowerLevel_spec :
    (∀ (p : PowerLevels) (eventTypes : List String) (user_id : String),
      hasEnoughPowerLevel (some p) eventTypes user_id = true ↔
        (UINT16_MAX ≤ p.user_level user_id % 65536 ∨
         ∃ ty ∈ eventTypes, p.state_level ty % 65536 ≤ p.user_level user_id % 65536)) ∧
    (∀ (eventTypes : List String) (user_id : String),
      hasEnoughPowerLevel none eventTypes user_id = false) := by
  constructor
  · intro p eventTypes user_id
    simp only [hasEnoughPowerLevel, decide_eq_true_eq]
    exact foldl_min_le_iff (fun ty => p.state_level ty % 65536) eventTypes
      UINT16_MAX (p.user_level user_id % 65536)
  · intro eventTypes user_id
    rfl

/-- Counterexample to C2 as stated: a room with no stored power-levels state
event and a non-empty list of event types, for which `hasEnoughPowerLevel`
returns false — not true as the "no restriction" part of the claim
requires. -/
theorem hasEnoughPowerLevel_counterexample :
    hasEnoughPowerLevel none ["m.room.name"] "alice" = false ∧
    (["m.room.name"] : List String) ≠ [] := by
  exact ⟨rfl, by decide⟩

end NhekoCache

namespace NhekoCache

theorem collectRestored_length (t : MessagesDb) :
    ∀ cap : Nat, (collectRestored t cap).length ≤ cap := by
  induction t with
  | nil => intro cap; simp [collectRestored]
  | cons hd rest ih =>
    intro cap
    cases cap with
    | zero => simp [collectRestored]
    | succ c =>
      obtain ⟨k, e⟩ := hd
      cases e with
      | malformed => simp [collectRestored]
      | missingFields => simpa [collectRestored] using ih (c + 1)
      | ok ev tok =>
        simp only [collectRestored, List.length_cons]
        exact Nat.succ_le_succ (ih c)

theorem messagesScan_no_malformed (t : MessagesDb) :
    ∀ (index : Nat) (evs : List String) (tok : String),
    (∀ p ∈ t, p.2 ≠ MsgEntry.malformed) →
    ∃ tok', messagesScan t index evs tok =
      .ok (evs ++ collectRestored t (MAX_RESTORED_MESSAGES - index), tok') := by
  induction t with
  | nil =>
    intro index evs tok _
    exact ⟨tok, by simp [messagesScan, collectRestored]⟩
  | cons hd rest ih =>
    intro index evs tok hml
    obtain ⟨k, e⟩ := hd
    by_cases hidx : index < MAX_RESTORED_MESSAGES
    · obtain ⟨c, hc⟩ : ∃ c, MAX_RESTORED_MESSAGES - index = c + 1 :=
        ⟨MAX_RESTORED_MESSAGES - index - 1, by omega⟩
      have hc' : MAX_RESTORED_MESSAGES - (index + 1) = c := by omega
      cases e with
      | malformed => exact absurd rfl (hml (k, .malformed) (by simp))
      | missingFields =>
        obtain ⟨tok', htok⟩ := ih index evs tok (fun p hp => hml p (by simp [hp]))
        refine ⟨tok', ?_⟩
        simp only [messagesScan, if_pos hidx]
        rw [htok, hc]
        simp [collectRestored, hc]
      | ok ev tk =>
        obtain ⟨tok', htok⟩ := ih (index + 1) (evs ++ [ev]) tk
          (fun p hp => hml p (by simp [hp]))
        refine ⟨tok', ?_⟩
        simp only [messagesScan, if_pos hidx]
        rw [htok, hc', hc]
        simp [collectRestored]
    · have hc0 : MAX_RESTORED_MESSAGES - index = 0 := by omega
      refine ⟨tok, ?_⟩
      simp only [messagesScan, if_neg hidx]
      rw [hc0]
      simp [collectRestored]

/-- C3 (amended): when no stored entry is malformed JSON (a malformed entry
would make `json::parse` throw and abort the whole call), the restored
timeline holds at most `MAX_RESTORED_MESSAGES` (30) events; these are the
FIRST well-formed entries in ascending-key order — i.e. the oldest, not the
most recent — with field-incomplete entries skipped without aborting, and
they are returned in reverse scan order (descending key), not chronological
order. -/
theorem getTimelineMessages_spec (table : MessagesDb)
    (hml : ∀ p ∈ table, p.2 ≠ MsgEntry.malformed) :
    ∃ tl : Timeline, getTimelineMessages table = .ok tl ∧
      tl.events = (collectRestored table MAX_RESTORED_MESSAGES).reverse ∧
      tl.events.length ≤ MAX_RESTORED_MESSAGES := by
  obtain ⟨tok', htok⟩ := messagesScan_no_malformed table 0 [] "" hml
  refine ⟨⟨(collectRestored table MAX_RESTORED_MESSAGES).reverse, tok'⟩, ?_, rfl, ?_⟩
  · simp only [getTimelineMessages]
    rw [htok]
    simp
  · simpa using collectRestored_length table MAX_RESTORED_MESSAGES

/-- Witness for C3 (amended) on a two-entry table with an entry missing its
fields: the scan skips it and returns the two well-formed events in reverse
scan order. -/
theorem getTimelineMessages_spec_witness :
    ∃ tl : Timeline,
      getTimelineMessages
        [("1", MsgEntry.ok "a" "t1"), ("2", MsgEntry.missingFields),
         ("3", MsgEntry.ok "b" "t2")] = .ok tl ∧
      tl.events = (collectRestored
        [("1", MsgEntry.ok "a" "t1"), ("2", MsgEntry.missingFields),
         ("3", MsgEntry.ok "b" "t2")] MAX_RESTORED_MESSAGES).reverse ∧
      tl.events.length ≤ MAX_RESTORED_MESSAGES :=
  getTimelineMessages_spec _ (by decide)

/-- Counterexample to C3 as stated: a two-entry table in ascending key order
is returned as `["b", "a"]` — reverse chronological order, not the claimed
chronological (ascending-key) order `["a", "b"]`; and a table whose first
entry fails to parse makes the whole call abort instead of skipping it. -/
theorem getTimelineMessages_counterexample :
    getTimelineMessages [("1", MsgEntry.ok "a" "t1"), ("2", MsgEntry.ok "b" "t2")] =
      .ok ⟨["b", "a"], "t2"⟩ ∧
    (["b", "a"] : List String) ≠ ["a", "b"] ∧
    getTimelineMessages [("1", MsgEntry.malformed), ("2", MsgEntry.ok "b" "t2")] =
      .error () := by
  exact ⟨rfl, by decide, rfl⟩

end NhekoCache

namespace NhekoCache

theorem pruneScan_eq_take (t : List (String × String)) :
    ∀ idx : Nat, pruneScan t idx = t.take (MAX_RESTORED_MESSAGES - idx) := by
  induction t with
  | nil => intro idx; simp [pruneScan]
  | cons e rest ih =>
    intro idx
    by_cases h : idx + 1 > MAX_RESTORED_MESSAGES
    · have h0 : MAX_RESTORED_MESSAGES - idx = 0 := by omega
      have h1 : MAX_RESTORED_MESSAGES - (idx + 1) = 0 := by omega
      simp only [pruneScan, if_pos h, ih, h0, h1]
      simp
    · have h1 : MAX_RESTORED_MESSAGES - idx = (MAX_RESTORED_MESSAGES - (idx + 1)) + 1 := by
        omega
      simp only [pruneScan, if_neg h, ih, h1]
      simp

/-- C4 (amended): `deleteOldMessages` leaves every room whose message table
holds at most 3 times the retention cap untouched; a table with more than
3 times the cap is cut down to exactly the cap's worth of entries, namely
the FIRST (lowest-key, i.e. oldest) `MAX_RESTORED_MESSAGES` entries of the
scan — the most recent entries are the ones deleted. -/
theorem deleteOldMessages_spec (roomTables : List (String × List (String × String))) :
    deleteOldMessages roomTables =
      roomTables.map (fun r =>
        (r.1, if r.2.length ≤ 3 * MAX_RESTORED_MESSAGES then r.2
              else r.2.take MAX_RESTORED_MESSAGES)) ∧
    (∀ r ∈ roomTables, 3 * MAX_RESTORED_MESSAGES < r.2.length →
      (deleteOldMessagesRoom r.2).length = MAX_RESTORED_MESSAGES) := by
  constructor
  · apply List.map_congr_left
    intro r _
    by_cases h : r.2.length ≤ 3 * MAX_RESTORED_MESSAGES
    · simp [deleteOldMessagesRoom, h]
    · simp [deleteOldMessagesRoom, h, pruneScan_eq_take]
  · intro r _ h
    have hle : ¬ r.2.length ≤ 3 * MAX_RESTORED_MESSAGES := by omega
    simp only [deleteOldMessagesRoom, if_neg hle, pruneScan_eq_take]
    simp only [List.length_take, Nat.sub_zero]
    omega

/-- Witness for C4: a single room holding 91 entries (more than 3 times the
cap) is cut down to exactly 30 entries. -/
theorem deleteOldMessages_spec_witness :
    (deleteOldMessagesRoom ((List.range 91).map (fun k => (toString k, "m")))).length =
      MAX_RESTORED_MESSAGES :=
  (deleteOldMessages_spec
    [("room", (List.range 91).map (fun k => (toString k, "m")))]).2
    ("room", (List.range 91).map (fun k => (toString k, "m")))
    (by simp) (by decide)

/-- Counterexample to C4 as stated: a 91-entry table (keys in ascending,
i.e. chronological, order) is pruned to its FIRST 30 entries — the oldest —
whereas the claim says exactly the 30 most recent entries (the last 30 of
the scan) remain. -/
theorem deleteOldMessages_counterexample :
    deleteOldMessagesRoom ((List.range 91).map (fun k => (toString k, "m"))) =
      ((List.range 91).map (fun k => (toString k, "m"))).take 30 ∧
    ((List.range 91).map (fun k => (toString k, "m"))).take 30 ≠
      ((List.range 91).map (fun k => (toString k, "m"))).drop 61 := by
  constructor
  · decide
  · decide

end NhekoCache

namespace NhekoCache

theorem levFuel_self (s : List Char) :
    ∀ fuel : Nat, s.length ≤ fuel → levFuel fuel s s = 0 := by
  induction s with
  | nil => intro fuel _; cases fuel <;> simp [levFuel]
  | cons a rest ih =>
    intro fuel hf
    cases fuel with
    | zero => simp at hf
    | succ f =>
      simp only [levFuel, if_pos rfl]
      exact ih f (by simpa using hf)

theorem levenshtein_self (s : List Char) : levenshtein_distance s s = 0 :=
  levFuel_self s (s.length + s.length) (by omega)

theorem mem_of_mem_mmInsert {α : Type} (l : List (Nat × α)) (k : Nat) (v : α) :
    ∀ x ∈ mmInsert l k v, x = (k, v) ∨ x ∈ l := by
  induction l with
  | nil => intro x hx; simpa [mmInsert] using hx
  | cons hd rest ih =>
    intro x hx
    by_cases h : k < hd.1
    · simp only [mmInsert, if_pos h] at hx
      rcases List.mem_cons.mp hx with rfl | hx
      · exact Or.inl rfl
      · exact Or.inr hx
    · simp only [mmInsert, if_neg h] at hx
      rcases List.mem_cons.mp hx with rfl | hx
      · exact Or.inr (List.mem_cons_self _ _)
      · rcases ih x hx with h1 | h1
        · exact Or.inl h1
        · exact Or.inr (List.mem_cons_of_mem _ h1)

theorem mem_mmInsert_of_mem {α : Type} (l : List (Nat × α)) (k : Nat) (v : α) :
    ∀ x ∈ l, x ∈ mmInsert l k v := by
  induction l with
  | nil => intro x hx; cases hx
  | cons hd rest ih =>
    intro x hx
    by_cases h : k < hd.1
    · simp only [mmInsert, if_pos h]
      exact List.mem_cons_of_mem _ hx
    · simp only [mmInsert, if_neg h]
      rcases List.mem_cons.mp hx with rfl | hx
      · exact List.mem_cons_self _ _
      · exact List.mem_cons_of_mem _ (ih x hx)

theorem self_mem_mmInsert {α : Type} (l : List (Nat × α)) (k : Nat) (v : α) :
    (k, v) ∈ mmInsert l k v := by
  induction l with
  | nil => simp [mmInsert]
  | cons hd rest ih =>
    by_cases h : k < hd.1
    · simp [mmInsert, if_pos h]
    · simp only [mmInsert, if_neg h]
      exact List.mem_cons_of_mem _ ih

theorem mmInsert_pairwise {α : Type} (l : List (Nat × α)) (k : Nat) (v : α)
    (h : l.Pairwise (fun a b => a.1 ≤ b.1)) :
    (mmInsert l k v).Pairwise (fun a b => a.1 ≤ b.1) := by
  induction l with
  | nil => simp [mmInsert]
  | cons hd rest ih =>
    rcases List.pairwise_cons.mp h with ⟨hhd, hrest⟩
    by_cases hk : k < hd.1
    · simp only [mmInsert, if_pos hk]
      refine List.pairwise_cons.mpr ⟨?_, h⟩
      intro y hy
      rcases List.mem_cons.mp hy with rfl | hy
      · exact Nat.le_of_lt hk
      · exact le_trans (Nat.le_of_lt hk) (hhd y hy)
    · simp only [mmInsert, if_neg hk]
      refine List.pairwise_cons.mpr ⟨?_, ih hrest⟩
      intro y hy
      rcases mem_of_mem_mmInsert rest k v y hy with rfl | hy
      · exact Nat.le_of_not_lt hk
      · exact hhd y hy

theorem searchRanked_foldl_pairwise (rooms : List (String × String)) (query : String) :
    ∀ acc : List (Nat × (String × String)),
    acc.Pairwise (fun a b => a.1 ≤ b.1) →
    (rooms.foldl (fun items r => mmInsert items (searchScore query r.2) r) acc).Pairwise
      (fun a b => a.1 ≤ b.1) := by
  induction rooms with
  | nil => intro acc hacc; simpa using hacc
  | cons r rest ih =>
    intro acc hacc
    exact ih (mmInsert acc (searchScore query r.2) r) (mmInsert_pairwise _ _ _ hacc)

theorem searchRanked_foldl_mem_acc (rooms : List (String × String)) (query : String) :
    ∀ (acc : List (Nat × (String × String))) (x : Nat × (String × String)), x ∈ acc →
    x ∈ rooms.foldl (fun items r => mmInsert items (searchScore query r.2) r) acc := by
  induction rooms with
  | nil => intro acc x hx; simpa using hx
  | cons r rest ih =>
    intro acc x hx
    exact ih _ x (mem_mmInsert_of_mem _ _ _ x hx)

theorem searchRanked_foldl_mem (rooms : List (String × String)) (query : String) :
    ∀ (acc : List (Nat × (String × String))) (r : String × String), r ∈ rooms →
    (searchScore query r.2, r) ∈
      rooms.foldl (fun items r => mmInsert items (searchScore query r.2) r) acc := by
  induction rooms with
  | nil => intro acc r hr; cases hr
  | cons hd rest ih =>
    intro acc r hr
    rcases List.mem_cons.mp hr with rfl | hr
    · exact searchRanked_foldl_mem_acc rest query _ _
        (self_mem_mmInsert acc (searchScore query r.2) r)
    · exact ih _ r hr

/-- C5 (amended): `searchRooms` scores each stored room by the edit distance
between the query AS GIVEN and the LOWERCASED room name (only the name is
lowercased, so the scoring is not case-insensitive in the query); the
ranked collection is ordered by ascending score with ties in scan order,
every stored room is scored and ranked, querying with the lowercased name
of a room gives that room score 0, and `max_items = 0` returns the empty
sequence. -/
theorem searchRooms_spec :
    (∀ (rooms : List (String × String)) (query : String),
      searchRooms rooms query 0 = []) ∧
    (∀ name : String, searchScore (strToLower name) name = 0) ∧
    (∀ (rooms : List (String × String)) (query : String),
      (searchRanked rooms query).Pairwise (fun a b => a.1 ≤ b.1)) ∧
    (∀ (rooms : List (String × String)) (query : String) (r : String × String),
      r ∈ rooms → (searchScore query r.2, r) ∈ searchRanked rooms query) := by
  refine ⟨?_, ?_, ?_, ?_⟩
  · intro rooms query
    simp [searchRooms]
  · intro name
    exact levenshtein_self (strToLower name).data
  · intro rooms query
    exact searchRanked_foldl_pairwise rooms query [] (by simp)
  · intro rooms query r hr
    exact searchRanked_foldl_mem rooms query [] r hr

/-- Witness for C5 at a concrete table: one stored room, queried with the
lowercased form of its name. -/
theorem searchRooms_spec_witness :
    searchRooms [("a", "Team")] "x" 0 = [] ∧
    searchScore (strToLower "Team") "Team" = 0 ∧
    (searchScore "team" ("a", "Team").2, ("a", "Team")) ∈
      searchRanked [("a", "Team")] "team" := by
  refine ⟨searchRooms_spec.1 [("a", "Team")] "x", searchRooms_spec.2.1 "Team", ?_⟩
  exact searchRooms_spec.2.2.2 [("a", "Team")] "team" ("a", "Team") (by simp)

/-- Counterexample to C5 as stated: the room "b" is stored under its exact
name "Team", yet querying with "Team" scores it 1 (the query is not
lowercased, the name is), and the room "a" named "eam" — at the same
distance 1 but earlier in scan order — is ranked first instead of the
exactly-named room. -/
theorem searchRooms_counterexample :
    searchRooms [("a", "eam"), ("b", "Team")] "Team" 2 =
      [("a", "eam"), ("b", "Team")] ∧
    searchScore "Team" "Team" = 1 ∧
    (("a", "eam") : String × String) ≠ ("b", "Team") := by
  refine ⟨by decide, by decide, by decide⟩

end NhekoCache

namespace NhekoCache

theorem foldl_removePendingReceipt (room_id : String) :
    ∀ (ms : List String) (pending : PendingReceiptsDb),
    ms.foldl (fun p m => removePendingReceipt p room_id m) pending =
      pending.filter (fun k => decide ¬(k.2 = room_id ∧ k.1 ∈ ms)) := by
  intro ms
  induction ms with
  | nil =>
    intro pending
    simp
  | cons m rest ih =>
    intro pending
    simp only [List.foldl_cons]
    rw [ih, removePendingReceipt, List.filter_filter]
    apply List.filter_congr
    intro k _
    by_cases h1 : k.2 = room_id <;> by_cases h2 : k.1 = m <;> by_cases h3 : k.1 ∈ rest <;>
      simp [h1, h2, h3, Prod.ext_iff, List.mem_cons]

/-- C7 (amended): an event counts as read exactly when its stored receipt
set is NON-EMPTY and is not a single entry belonging to the local
(excluded) user — an event with no stored receipts at all is NOT counted
read, although its receipt set is also not a single local entry; and
`notifyForReadReceipts` signals exactly the pending events of the room that
count as read and removes exactly those (event id, room id) keys from the
pending table. -/
theorem notifyForReadReceipts_spec :
    (∀ (receipts : ReceiptMap) (excluded_user : String),
      eventIsRead receipts excluded_user = true ↔
        (receipts ≠ [] ∧
         ¬(receipts.length = 1 ∧
           (receipts.map Prod.fst).head? = some excluded_user))) ∧
    (∀ (db : ReadReceiptsDb) (pending : PendingReceiptsDb) (room_id local_user : String),
      (notifyForReadReceipts db pending room_id local_user).2 =
        filterReadEvents db room_id (pendingReceiptsEvents pending room_id) local_user ∧
      (notifyForReadReceipts db pending room_id local_user).1 =
        pending.filter (fun k => decide ¬(k.2 = room_id ∧
          k.1 ∈ filterReadEvents db room_id (pendingReceiptsEvents pending room_id)
            local_user))) := by
  constructor
  · intro receipts excluded_user
    rcases receipts with _ | ⟨⟨u1, t1⟩, _ | ⟨⟨u2, t2⟩, tl⟩⟩ <;> simp [eventIsRead]
  · intro db pending room_id local_user
    constructor
    · rfl
    · simp only [notifyForReadReceipts]
      exact foldl_removePendingReceipt room_id _ pending

/-- Counterexample to C7 as stated: the pending event "e1" has an EMPTY
stored receipt set — in particular not a receipt set that is a single entry
of the local user — so by the claim it should count as read and be kept,
but `filterReadEvents` drops it (the code skips events with zero
receipts). -/
theorem filterReadEvents_counterexample :
    filterReadEvents [] "r" ["e1"] "me" = [] ∧
    ([] : List String) ≠ ["e1"] ∧
    readReceipts ([] : ReadReceiptsDb) "e1" "r" = [] ∧
    ¬((readReceipts ([] : ReadReceiptsDb) "e1" "r").length = 1 ∧
      ((readReceipts ([] : ReadReceiptsDb) "e1" "r").map Prod.fst).head? = some "me") := by
  refine ⟨rfl, by decide, rfl, by decide⟩

end NhekoCache
